import Mathlib

/-!
Verification of the persistence / domain-integrity layer of the `jirrah`
issue tracker (`src/db.rs`, `src/models.rs`).

The Rust data model is embedded shallowly:
* `u32` becomes `Nat` with an explicit `% 2^32` at the one place the code
  performs arithmetic (`last_item_id + 1`);
* `HashMap<u32, _>` becomes an association list `List (Nat × _)` with
  first-match lookup; `insert` overwrites, `remove` deletes, `get_mut`
  edits in place;
* `anyhow::Result` becomes `Except DbError`, with one `DbError`
  constructor per `anyhow!` site in `db.rs`;
* the `Database` trait object is a `Backend` record holding the persisted
  snapshot plus flags for read/write I/O failure, mirroring `MockDB`
  (never fails) and `JSONFileDatabase` (either call may fail).
-/

namespace Jirrah

/-- The u32 modulus: identifiers in the source are `u32`. -/
def U32LIM : Nat := 4294967296

/-- `Status` from `models.rs`. -/
inductive Status where
  | InProgress
  | Closed
  | Open
  | Resolved
deriving DecidableEq, Repr

/-- `Epic` from `models.rs`. -/
structure Epic where
  name : String
  description : String
  status : Status
  stories : List Nat
deriving DecidableEq, Repr

/-- `Story` from `models.rs`. -/
structure Story where
  name : String
  description : String
  status : Status
deriving DecidableEq, Repr

/-- `DBState` from `models.rs`; the two `HashMap<u32, _>` fields become
association lists. -/
structure DBState where
  last_item_id : Nat
  epics : List (Nat × Epic)
  stories : List (Nat × Story)
deriving DecidableEq, Repr

/-- `HashMap::get`: first-match lookup by key. -/
def lookupKey {α : Type} (k : Nat) : List (Nat × α) → Option α
  | [] => none
  | p :: m => if p.1 = k then some p.2 else lookupKey k m

/-- Remove every pair with the given key (`HashMap::remove`, ignoring the
returned value). -/
def eraseKey {α : Type} (k : Nat) (m : List (Nat × α)) : List (Nat × α) :=
  m.filter (fun p => p.1 ≠ k)

/-- `HashMap::insert`: overwrite any existing binding of the key. -/
def insertKey {α : Type} (k : Nat) (v : α) (m : List (Nat × α)) : List (Nat × α) :=
  (k, v) :: eraseKey k m

/-- `HashMap::remove` with its `Option` result: `none` when the key is
absent, otherwise the removed value and the shrunken map. -/
def removeKey {α : Type} (k : Nat) (m : List (Nat × α)) :
    Option (α × List (Nat × α)) :=
  match lookupKey k m with
  | none => none
  | some v => some (v, eraseKey k m)

/-- `HashMap::get_mut` followed by an in-place edit of the value. -/
def modifyKey {α : Type} (k : Nat) (f : α → α) (m : List (Nat × α)) :
    List (Nat × α) :=
  m.map (fun p => if p.1 = k then (p.1, f p.2) else p)

/-- One constructor per `anyhow!` site in `db.rs`, plus the two I/O
failures a `Database` backend can raise. -/
inductive DbError where
  | readError
  | writeError
  | createStoryNoEpic (epic_id : Nat)
  | deleteEpicNotFound (epic_id : Nat)
  | deleteEpicFailed (epic_id : Nat)
  | deleteStoryNotFound (story_id : Nat)
  | deleteStoryEpicNotFound (story_id : Nat) (epic_id : Nat)
  | updateEpicNotFound (epic_id : Nat)
  | updateStoryNotFound (story_id : Nat)
deriving DecidableEq, Repr

/-- The in-memory mutation of `JiraDatabase::create_epic` between
`read_db` and `write_db` (db.rs lines 24-32). -/
def create_epic_step (epic : Epic) (db : DBState) : DBState × Nat :=
  let next_id := (db.last_item_id + 1) % U32LIM
  ({ last_item_id := next_id
     epics := insertKey next_id epic db.epics
     stories := db.stories }, next_id)

/-- The in-memory mutation of `JiraDatabase::create_story` (db.rs lines
34-46): the story is inserted before the epic lookup; on a missing epic
the mutated state is discarded. -/
def create_story_step (story : Story) (epic_id : Nat) (db : DBState) :
    Except DbError (DBState × Nat) :=
  let next_id := (db.last_item_id + 1) % U32LIM
  let stories1 := insertKey next_id story db.stories
  match lookupKey epic_id db.epics with
  | some _ =>
      .ok ({ last_item_id := next_id
             epics := modifyKey epic_id
               (fun e => { e with stories := e.stories ++ [next_id] }) db.epics
             stories := stories1 }, next_id)
  | none => .error (.createStoryNoEpic epic_id)

/-- The in-memory mutation of `JiraDatabase::delete_epic` (db.rs lines
48-66): look the epic up, remove every story it references, then remove
the epic itself, with a defensive error if that removal finds nothing. -/
def delete_epic_step (epic_id : Nat) (db : DBState) : Except DbError DBState :=
  match lookupKey epic_id db.epics with
  | none => .error (.deleteEpicNotFound epic_id)
  | some epic =>
      let stories1 := epic.stories.foldl (fun m sid => eraseKey sid m) db.stories
      match removeKey epic_id db.epics with
      | none => .error (.deleteEpicFailed epic_id)
      | some (_, epics1) =>
          .ok { last_item_id := db.last_item_id
                epics := epics1
                stories := stories1 }

/-- The in-memory mutation of `JiraDatabase::delete_story` (db.rs lines
68-91): remove the story first, then look the epic up and retain every
other id in its story list. -/
def delete_story_step (epic_id : Nat) (story_id : Nat) (db : DBState) :
    Except DbError DBState :=
  match removeKey story_id db.stories with
  | none => .error (.deleteStoryNotFound story_id)
  | some (_, stories1) =>
      match lookupKey epic_id db.epics with
      | none => .error (.deleteStoryEpicNotFound story_id epic_id)
      | some _ =>
          .ok { last_item_id := db.last_item_id
                epics := modifyKey epic_id
                  (fun e => { e with stories := e.stories.filter (fun x => x ≠ story_id) })
                  db.epics
                stories := stories1 }

/-- The in-memory mutation of `JiraDatabase::update_epic_status` (db.rs
lines 93-106). -/
def update_epic_status_step (epic_id : Nat) (status : Status) (db : DBState) :
    Except DbError DBState :=
  match lookupKey epic_id db.epics with
  | some _ =>
      .ok { db with
            epics := modifyKey epic_id (fun e => { e with status := status }) db.epics }
  | none => .error (.updateEpicNotFound epic_id)

/-- The in-memory mutation of `JiraDatabase::update_story_status` (db.rs
lines 108-121). -/
def update_story_status_step (story_id : Nat) (status : Status) (db : DBState) :
    Except DbError DBState :=
  match lookupKey story_id db.stories with
  | some _ =>
      .ok { db with
            stories := modifyKey story_id (fun st => { st with status := status }) db.stories }
  | none => .error (.updateStoryNotFound story_id)

/-- The six domain commands of `JiraDatabase`. -/
inductive Op where
  | createEpic (epic : Epic)
  | createStory (story : Story) (epic_id : Nat)
  | deleteEpic (epic_id : Nat)
  | deleteStory (epic_id : Nat) (story_id : Nat)
  | updateEpicStatus (epic_id : Nat) (status : Status)
  | updateStoryStatus (story_id : Nat) (status : Status)
deriving DecidableEq, Repr

/-- The pure read-to-write part of one `JiraDatabase` operation: the new
in-memory snapshot and the returned identifier (for the create
operations). -/
def applyOp (op : Op) (db : DBState) : Except DbError (DBState × Option Nat) :=
  match op with
  | .createEpic epic =>
      let r := create_epic_step epic db
      .ok (r.1, some r.2)
  | .createStory story epic_id =>
      (create_story_step story epic_id db).map (fun r => (r.1, some r.2))
  | .deleteEpic epic_id =>
      (delete_epic_step epic_id db).map (fun s => (s, none))
  | .deleteStory epic_id story_id =>
      (delete_story_step epic_id story_id db).map (fun s => (s, none))
  | .updateEpicStatus epic_id status =>
      (update_epic_status_step epic_id status db).map (fun s => (s, none))
  | .updateStoryStatus story_id status =>
      (update_story_status_step story_id status db).map (fun s => (s, none))

/-- A `Database` backend: the persisted snapshot plus whether its
`read_db` / `write_db` calls fail. `MockDB` is the special case with both
flags false; `JSONFileDatabase` may fail either call. -/
structure Backend where
  persisted : DBState
  readFails : Bool
  writeFails : Bool
deriving DecidableEq, Repr

/-- `Database::read_db` on the backend model. -/
def readDb (b : Backend) : Except DbError DBState :=
  if b.readFails then .error .readError else .ok b.persisted

/-- `Database::write_db` on the backend model: on success the persisted
snapshot is replaced wholesale. -/
def writeDb (s : DBState) (b : Backend) : Except DbError Backend :=
  if b.writeFails then .error .writeError else .ok { b with persisted := s }

instance {ε α : Type} [DecidableEq ε] [DecidableEq α] : DecidableEq (Except ε α) := fun x y =>
  match x, y with
  | .ok a, .ok b =>
      if h : a = b then .isTrue (by rw [h])
      else .isFalse (by intro hc; cases hc; exact h rfl)
  | .error a, .error b =>
      if h : a = b then .isTrue (by rw [h])
      else .isFalse (by intro hc; cases hc; exact h rfl)
  | .ok _, .error _ => .isFalse (by intro hc; cases hc)
  | .error _, .ok _ => .isFalse (by intro hc; cases hc)

/-- Outcome of one full `JiraDatabase` operation: the backend afterwards,
the returned value, and whether `write_db` was invoked. -/
structure RunResult where
  backend : Backend
  result : Except DbError (Option Nat)
  writeInvoked : Bool
deriving DecidableEq, Repr

/-- One full `JiraDatabase` operation: `read_db`, the in-memory mutation,
then `write_db` on success — the shape shared by all six methods in
`db.rs`. -/
def runOp (op : Op) (b : Backend) : RunResult :=
  match readDb b with
  | .error e => ⟨b, .error e, false⟩
  | .ok db =>
      match applyOp op db with
      | .error e => ⟨b, .error e, false⟩
      | .ok (db1, r) =>
          match writeDb db1 b with
          | .error e => ⟨b, .error e, true⟩
          | .ok b1 => ⟨b1, .ok r, true⟩

/-- `JiraDatabase::create_epic` against a backend. -/
def create_epic (epic : Epic) (b : Backend) : RunResult :=
  runOp (.createEpic epic) b

/-- `JiraDatabase::create_story` against a backend. -/
def create_story (story : Story) (epic_id : Nat) (b : Backend) : RunResult :=
  runOp (.createStory story epic_id) b

/-- `JiraDatabase::delete_epic` against a backend. -/
def delete_epic (epic_id : Nat) (b : Backend) : RunResult :=
  runOp (.deleteEpic epic_id) b

/-- `JiraDatabase::delete_story` against a backend. -/
def delete_story (epic_id : Nat) (story_id : Nat) (b : Backend) : RunResult :=
  runOp (.deleteStory epic_id story_id) b

/-- The empty snapshot `MockDB::new` starts from. -/
def emptyDB : DBState := { last_item_id := 0, epics := [], stories := [] }

/-- A `MockDB`-style backend holding a given snapshot: I/O never fails. -/
def mockBackend (s : DBState) : Backend :=
  { persisted := s, readFails := false, writeFails := false }

/-- Keys of an association map. -/
def keysOf {α : Type} (m : List (Nat × α)) : List Nat := m.map Prod.fst

/-- The story-removal loop of `delete_epic`: erase each listed key. -/
def erasesAll {α : Type} (l : List Nat) (m : List (Nat × α)) : List (Nat × α) :=
  l.foldl (fun acc sid => eraseKey sid acc) m

/-- Referential integrity as stated in the spec: every identifier in an
epic's story list has an entry in the stories collection, and every story
is referenced by exactly one epic's story list. -/
def RefIntegrity (s : DBState) : Prop :=
  (∀ p ∈ s.epics, ∀ sid ∈ p.2.stories, (lookupKey sid s.stories).isSome) ∧
  (∀ q ∈ s.stories, List.countP (fun p => decide (q.1 ∈ p.2.stories)) s.epics = 1)

instance (s : DBState) : Decidable (RefIntegrity s) := by
  unfold RefIntegrity
  infer_instance

/-- The full inductive invariant of the store: identifiers are bounded by
the counter, keys are unique in both collections, and referential
integrity holds. -/
def WF (s : DBState) : Prop :=
  (∀ k ∈ keysOf s.epics, k ≤ s.last_item_id) ∧
  (∀ k ∈ keysOf s.stories, k ≤ s.last_item_id) ∧
  (keysOf s.epics).Nodup ∧
  (keysOf s.stories).Nodup ∧
  RefIntegrity s

instance (s : DBState) : Decidable (WF s) := by
  unfold WF
  infer_instance

/-- A run of domain-store operations, each of which succeeds on the
in-memory snapshot. -/
inductive Steps : DBState → List Op → DBState → Prop where
  | nil (s : DBState) : Steps s [] s
  | cons {s s1 t : DBState} {op : Op} {ops : List Op} {r : Option Nat}
      (h : applyOp op s = .ok (s1, r)) (htail : Steps s1 ops t) :
      Steps s (op :: ops) t

/-- A run of successful operations in which every `create_epic` is passed
an epic with an empty story list, and every `delete_story` names the epic
that actually references the story — the calling discipline of the UI. -/
inductive GoodOps : DBState → List Op → DBState → Prop where
  | nil (s : DBState) : GoodOps s [] s
  | cons {s s1 t : DBState} {op : Op} {ops : List Op} {r : Option Nat}
      (h : applyOp op s = .ok (s1, r))
      (hce : ∀ e, op = Op.createEpic e → e.stories = [])
      (hds : ∀ eid sid, op = Op.deleteStory eid sid →
        ∃ E, lookupKey eid s.epics = some E ∧ sid ∈ E.stories)
      (htail : GoodOps s1 ops t) :
      GoodOps s (op :: ops) t

/-- Repeated `create_epic` calls: the final snapshot and the returned
identifiers, in order. -/
def create_epics (es : List Epic) (s : DBState) : DBState × List Nat :=
  match es with
  | [] => (s, [])
  | e :: rest =>
      let r := create_epic_step e s
      let r2 := create_epics rest r.1
      (r2.1, r.2 :: r2.2)

/-- A sample epic with an empty story list, as `Epic::new` builds it. -/
def sampleEpic : Epic :=
  { name := "E1", description := "d", status := .Open, stories := [] }

/-- A sample story, as `Story::new` builds it. -/
def sampleStory : Story :=
  { name := "S1", description := "d", status := .Open }

/-- A backend whose `write_db` fails (e.g. the file became unwritable). -/
def failWriteBackend : Backend :=
  { persisted := emptyDB, readFails := false, writeFails := true }

/-- A snapshot sitting at the largest `u32` identifier, with identifier 0
already used by an epic. -/
def wrapState : DBState :=
  { last_item_id := U32LIM - 1, epics := [(0, sampleEpic)], stories := [] }

/-- A snapshot at the largest `u32` identifier with one epic, for the
create-story wrap counterexample. -/
def wrapEpicState : DBState :=
  { last_item_id := U32LIM - 1, epics := [(1, sampleEpic)], stories := [] }

/-- A snapshot at the largest `u32` identifier with empty collections. -/
def wrapEmptyState : DBState :=
  { last_item_id := U32LIM - 1, epics := [], stories := [] }

/-- The JSON value tree `serde_json` builds for this data model
(`JSONFileDatabase` serializes with `to_string_pretty` and parses with
`from_reader`; the text layer is serde's, the shape below is what the
derives on `DBState`, `Epic`, `Story` and `Status` produce). -/
inductive Json where
  | num (n : Nat)
  | str (s : String)
  | arr (elems : List Json)
  | obj (fields : List (String × Json))

/-- A decimal digit rendered as its character, as `u32: Display` does. -/
def digitChar (d : Nat) : Char :=
  if d = 0 then '0' else if d = 1 then '1' else if d = 2 then '2'
  else if d = 3 then '3' else if d = 4 then '4' else if d = 5 then '5'
  else if d = 6 then '6' else if d = 7 then '7' else if d = 8 then '8' else '9'

/-- A character read back as a decimal digit, as `u32: FromStr` does. -/
def charDigit (c : Char) : Option Nat :=
  if c = '0' then some 0 else if c = '1' then some 1 else if c = '2' then some 2
  else if c = '3' then some 3 else if c = '4' then some 4 else if c = '5' then some 5
  else if c = '6' then some 6 else if c = '7' then some 7 else if c = '8' then some 8
  else if c = '9' then some 9 else none

/-- Decimal rendering of a map key (most significant digit first). -/
def natKeyChars (n : Nat) : List Char :=
  if n = 0 then [Char.ofNat 48] else (Nat.digits 10 n).reverse.map digitChar

/-- A `u32` map key as the decimal string serde writes. -/
def keyOfNat (n : Nat) : String := ⟨natKeyChars n⟩

/-- Read every character as a digit, failing on a non-digit. -/
def digitsOfChars : List Char → Option (List Nat)
  | [] => some []
  | c :: cs =>
      match charDigit c, digitsOfChars cs with
      | some d, some ds => some (d :: ds)
      | _, _ => none

/-- Parse a decimal map key back to a number, as serde does for `u32`
keys. -/
def natOfKey (s : String) : Option Nat :=
  if s.data = [] then none
  else
    match digitsOfChars s.data with
    | none => none
    | some ds => some (Nat.ofDigits 10 ds.reverse)

/-- `Status` serializes as its variant name. -/
def Status.toJson : Status → Json
  | .InProgress => .str "InProgress"
  | .Closed => .str "Closed"
  | .Open => .str "Open"
  | .Resolved => .str "Resolved"

/-- A status value outside the four recognized symbols is rejected. -/
def Status.fromJson : Json → Option Status
  | .str s =>
      if s = "InProgress" then some .InProgress
      else if s = "Closed" then some .Closed
      else if s = "Open" then some .Open
      else if s = "Resolved" then some .Resolved
      else none
  | _ => none

/-- Field lookup in a JSON object, as serde's derived struct
deserializer matches fields by name. -/
def getField (fields : List (String × Json)) (k : String) : Option Json :=
  match fields with
  | [] => none
  | f :: rest => if f.1 = k then some f.2 else getField rest k

/-- `Epic` serializes as an object with its four fields. -/
def Epic.toJson (e : Epic) : Json :=
  .obj [("name", .str e.name), ("description", .str e.description),
    ("status", Status.toJson e.status),
    ("stories", .arr (e.stories.map Json.num))]

/-- A JSON array of numbers read back as a `Vec<u32>`. -/
def natListFromJson : List Json → Option (List Nat)
  | [] => some []
  | .num n :: rest =>
      match natListFromJson rest with
      | some ns => some (n :: ns)
      | none => none
  | _ :: _ => none

/-- An `Epic` read back from JSON; any missing or ill-typed field is a
format error. -/
def Epic.fromJson (j : Json) : Option Epic :=
  match j with
  | .obj fields =>
      match getField fields "name", getField fields "description",
        getField fields "status", getField fields "stories" with
      | some (.str nm), some (.str d), some stj, some (.arr l) =>
          match Status.fromJson stj, natListFromJson l with
          | some st, some l2 =>
              some { name := nm, description := d, status := st, stories := l2 }
          | _, _ => none
      | _, _, _, _ => none
  | _ => none

/-- `Story` serializes as an object with its three fields. -/
def Story.toJson (st : Story) : Json :=
  .obj [("name", .str st.name), ("description", .str st.description),
    ("status", Status.toJson st.status)]

/-- A `Story` read back from JSON. -/
def Story.fromJson (j : Json) : Option Story :=
  match j with
  | .obj fields =>
      match getField fields "name", getField fields "description",
        getField fields "status" with
      | some (.str nm), some (.str d), some stj =>
          match Status.fromJson stj with
          | some st => some { name := nm, description := d, status := st }
          | none => none
      | _, _, _ => none
  | _ => none

/-- The epics map serializes as an object keyed by decimal ids. -/
def epicsToJson (m : List (Nat × Epic)) : Json :=
  .obj (m.map (fun p => (keyOfNat p.1, Epic.toJson p.2)))

/-- Read the epics map back entry by entry. -/
def epicsFromJsonFields : List (String × Json) → Option (List (Nat × Epic))
  | [] => some []
  | f :: rest =>
      match natOfKey f.1, Epic.fromJson f.2, epicsFromJsonFields rest with
      | some k, some e, some t => some ((k, e) :: t)
      | _, _, _ => none

/-- The epics map read back from JSON. -/
def epicsFromJson : Json → Option (List (Nat × Epic))
  | .obj fields => epicsFromJsonFields fields
  | _ => none

/-- The stories map serializes as an object keyed by decimal ids. -/
def storiesToJson (m : List (Nat × Story)) : Json :=
  .obj (m.map (fun p => (keyOfNat p.1, Story.toJson p.2)))

/-- Read the stories map back entry by entry. -/
def storiesFromJsonFields : List (String × Json) → Option (List (Nat × Story))
  | [] => some []
  | f :: rest =>
      match natOfKey f.1, Story.fromJson f.2, storiesFromJsonFields rest with
      | some k, some st, some t => some ((k, st) :: t)
      | _, _, _ => none

/-- The stories map read back from JSON. -/
def storiesFromJson : Json → Option (List (Nat × Story))
  | .obj fields => storiesFromJsonFields fields
  | _ => none

/-- `DBState` serializes as an object with its three fields. -/
def DBState.toJson (s : DBState) : Json :=
  .obj [("last_item_id", .num s.last_item_id),
    ("epics", epicsToJson s.epics), ("stories", storiesToJson s.stories)]

/-- A `DBState` read back from JSON; any missing field or malformed key
is a format error. -/
def DBState.fromJson (j : Json) : Option DBState :=
  match j with
  | .obj fields =>
      match getField fields "last_item_id", getField fields "epics",
        getField fields "stories" with
      | some (.num n), some ej, some sj =>
          match epicsFromJson ej, storiesFromJson sj with
          | some es, some ss =>
              some { last_item_id := n, epics := es, stories := ss }
          | _, _ => none
      | _, _, _ => none
  | _ => none

/-- `JSONFileDatabase::write_db` followed by `read_db`, at the JSON value
level: serialize the snapshot and parse it back. -/
def write_then_read (s : DBState) : Option DBState :=
  DBState.fromJson (DBState.toJson s)

end Jirrah

namespace Jirrah

theorem lookupKey_cons {α : Type} (p : Nat × α) (m : List (Nat × α)) (k : Nat) :
    lookupKey k (p :: m) = if p.1 = k then some p.2 else lookupKey k m := rfl

theorem mem_of_lookupKey {α : Type} {m : List (Nat × α)} {k : Nat} {v : α}
    (h : lookupKey k m = some v) : (k, v) ∈ m := by
  induction m with
  | nil => simp [lookupKey] at h
  | cons p t ih =>
      rw [lookupKey_cons] at h
      by_cases hk : p.1 = k
      · simp only [if_pos hk] at h
        obtain ⟨a, b⟩ := p
        simp only at hk
        cases hk
        cases Option.some.inj h
        exact List.mem_cons_self _ _
      · simp only [if_neg hk] at h
        exact List.mem_cons_of_mem _ (ih h)

theorem lookupKey_isSome_of_mem_keys {α : Type} {m : List (Nat × α)} {k : Nat}
    (h : k ∈ keysOf m) : (lookupKey k m).isSome := by
  induction m with
  | nil => simp [keysOf] at h
  | cons p t ih =>
      rw [lookupKey_cons]
      by_cases hk : p.1 = k
      · simp [hk]
      · simp only [if_neg hk]
        apply ih
        simp only [keysOf, List.map_cons, List.mem_cons] at h
        rcases h with h | h
        · exact absurd h.symm hk
        · exact h

theorem mem_keys_of_lookupKey {α : Type} {m : List (Nat × α)} {k : Nat} {v : α}
    (h : lookupKey k m = some v) : k ∈ keysOf m := by
  have := mem_of_lookupKey h
  exact List.mem_map.2 ⟨(k, v), this, rfl⟩

theorem lookupKey_eq_none_of_not_mem_keys {α : Type} {m : List (Nat × α)} {k : Nat}
    (h : k ∉ keysOf m) : lookupKey k m = none := by
  cases hl : lookupKey k m with
  | none => rfl
  | some v => exact absurd (mem_keys_of_lookupKey hl) h

theorem mem_eraseKey {α : Type} {m : List (Nat × α)} {k : Nat} {p : Nat × α} :
    p ∈ eraseKey k m ↔ p ∈ m ∧ p.1 ≠ k := by
  simp [eraseKey, List.mem_filter]

theorem lookupKey_eraseKey {α : Type} (m : List (Nat × α)) (k k1 : Nat) :
    lookupKey k (eraseKey k1 m) = if k = k1 then none else lookupKey k m := by
  induction m with
  | nil => simp [eraseKey, lookupKey]
  | cons p t ih =>
      by_cases hp : p.1 = k1
      · have : eraseKey k1 (p :: t) = eraseKey k1 t := by
          simp [eraseKey, hp]
        rw [this, ih, lookupKey_cons]
        by_cases hk : k = k1
        · simp [hk]
        · have : p.1 ≠ k := by rw [hp]; exact fun hh => hk hh.symm
          simp [hk, this]
      · have : eraseKey k1 (p :: t) = p :: eraseKey k1 t := by
          simp [eraseKey, hp]
        rw [this, lookupKey_cons, lookupKey_cons, ih]
        by_cases hpk : p.1 = k
        · have : k ≠ k1 := by rw [← hpk]; exact hp
          simp [hpk, this]
        · simp [hpk]

theorem eraseKey_of_not_mem_keys {α : Type} {m : List (Nat × α)} {k : Nat}
    (h : k ∉ keysOf m) : eraseKey k m = m := by
  apply List.filter_eq_self.2
  intro p hp
  have : p.1 ∈ keysOf m := List.mem_map.2 ⟨p, hp, rfl⟩
  have hne : p.1 ≠ k := fun he => h (he ▸ this)
  simpa using hne

theorem lookupKey_insertKey_self {α : Type} (m : List (Nat × α)) (k : Nat) (v : α) :
    lookupKey k (insertKey k v m) = some v := by
  simp [insertKey, lookupKey_cons]

theorem lookupKey_insertKey_ne {α : Type} (m : List (Nat × α)) {k k1 : Nat} (v : α)
    (h : k ≠ k1) : lookupKey k (insertKey k1 v m) = lookupKey k m := by
  simp only [insertKey, lookupKey_cons]
  have h1 : k1 ≠ k := fun he => h he.symm
  rw [if_neg h1, lookupKey_eraseKey, if_neg h]

theorem lookupKey_modifyKey_self {α : Type} (f : α → α) (m : List (Nat × α)) (k : Nat) :
    lookupKey k (modifyKey k f m) = (lookupKey k m).map f := by
  induction m with
  | nil => simp [modifyKey, lookupKey]
  | cons p t ih =>
      by_cases hp : p.1 = k
      · simp [modifyKey, lookupKey_cons, hp]
      · simp only [modifyKey, List.map_cons, if_neg hp] at *
        rw [lookupKey_cons, lookupKey_cons, if_neg hp, if_neg hp, ih]

theorem lookupKey_modifyKey_ne {α : Type} (f : α → α) (m : List (Nat × α)) {k k1 : Nat}
    (h : k ≠ k1) : lookupKey k (modifyKey k1 f m) = lookupKey k m := by
  induction m with
  | nil => simp [modifyKey, lookupKey]
  | cons p t ih =>
      by_cases hp : p.1 = k1
      · have hpk : p.1 ≠ k := by rw [hp]; exact fun he => h he.symm
        simp only [modifyKey, List.map_cons, if_pos hp] at *
        rw [lookupKey_cons, lookupKey_cons]
        simp only [if_neg hpk]
        exact ih
      · simp only [modifyKey, List.map_cons, if_neg hp] at *
        rw [lookupKey_cons, lookupKey_cons, ih]

theorem keysOf_modifyKey {α : Type} (f : α → α) (m : List (Nat × α)) (k : Nat) :
    keysOf (modifyKey k f m) = keysOf m := by
  induction m with
  | nil => rfl
  | cons p t ih =>
      simp only [modifyKey, keysOf, List.map_cons] at *
      rw [ih]
      by_cases hp : p.1 = k
      · simp [hp]
      · simp [hp]

theorem keysOf_eraseKey_subset {α : Type} (m : List (Nat × α)) (k : Nat) :
    keysOf (eraseKey k m) ⊆ keysOf m := by
  intro x hx
  rcases List.mem_map.1 hx with ⟨p, hp, he⟩
  exact List.mem_map.2 ⟨p, (mem_eraseKey.1 hp).1, he⟩

theorem nodup_keysOf_eraseKey {α : Type} {m : List (Nat × α)} (k : Nat)
    (h : (keysOf m).Nodup) : (keysOf (eraseKey k m)).Nodup := by
  have hsub : List.Sublist (eraseKey k m) m := List.filter_sublist m
  exact List.Nodup.sublist (List.Sublist.map Prod.fst hsub) h

theorem mem_modifyKey {α : Type} {f : α → α} {m : List (Nat × α)} {k : Nat} {p : Nat × α}
    (h : p ∈ modifyKey k f m) :
    (p ∈ m ∧ p.1 ≠ k) ∨ ∃ v, (k, v) ∈ m ∧ p = (k, f v) := by
  rcases List.mem_map.1 h with ⟨q, hq, he⟩
  by_cases hk : q.1 = k
  · right
    refine ⟨q.2, ?_, ?_⟩
    · have : q = (k, q.2) := by cases q; simp_all
      rwa [← this]
    · rw [← he]
      simp [hk]
  · left
    rw [← he]
    simp only [if_neg hk]
    exact ⟨hq, hk⟩

end Jirrah

namespace Jirrah

theorem erasesAll_nil {α : Type} (m : List (Nat × α)) : erasesAll [] m = m := rfl

theorem erasesAll_cons {α : Type} (a : Nat) (l : List Nat) (m : List (Nat × α)) :
    erasesAll (a :: l) m = erasesAll l (eraseKey a m) := rfl

theorem lookupKey_erasesAll {α : Type} (l : List Nat) (m : List (Nat × α)) (k : Nat) :
    lookupKey k (erasesAll l m) = if k ∈ l then none else lookupKey k m := by
  induction l generalizing m with
  | nil => simp [erasesAll_nil]
  | cons a l ih =>
      rw [erasesAll_cons, ih, lookupKey_eraseKey]
      by_cases hk : k = a
      · simp [hk]
      · by_cases hl : k ∈ l
        · simp [hl]
        · have : k ∉ a :: l := by
            simp [List.mem_cons, hk, hl]
          simp [hl, hk, this]

theorem mem_erasesAll {α : Type} (l : List Nat) (m : List (Nat × α)) (p : Nat × α) :
    p ∈ erasesAll l m ↔ p ∈ m ∧ p.1 ∉ l := by
  induction l generalizing m with
  | nil => simp [erasesAll_nil]
  | cons a l ih =>
      rw [erasesAll_cons, ih]
      simp only [mem_eraseKey, List.mem_cons]
      constructor
      · rintro ⟨⟨hm, hne⟩, hnl⟩
        exact ⟨hm, by simp [hne, hnl]⟩
      · rintro ⟨hm, hn⟩
        simp only [not_or] at hn
        exact ⟨⟨hm, hn.1⟩, hn.2⟩

theorem erasesAll_sublist {α : Type} (l : List Nat) (m : List (Nat × α)) :
    List.Sublist (erasesAll l m) m := by
  induction l generalizing m with
  | nil => simp [erasesAll_nil]
  | cons a l ih =>
      rw [erasesAll_cons]
      exact List.Sublist.trans (ih (eraseKey a m)) (List.filter_sublist m)

theorem nodup_keysOf_erasesAll {α : Type} {m : List (Nat × α)} (l : List Nat)
    (h : (keysOf m).Nodup) : (keysOf (erasesAll l m)).Nodup :=
  List.Nodup.sublist (List.Sublist.map Prod.fst (erasesAll_sublist l m)) h

theorem keysOf_erasesAll_subset {α : Type} (l : List Nat) (m : List (Nat × α)) :
    keysOf (erasesAll l m) ⊆ keysOf m :=
  List.Sublist.subset (List.Sublist.map Prod.fst (erasesAll_sublist l m))

theorem keysOf_insertKey_fresh {α : Type} {m : List (Nat × α)} {k : Nat} (v : α)
    (h : k ∉ keysOf m) : keysOf (insertKey k v m) = k :: keysOf m := by
  rw [insertKey, eraseKey_of_not_mem_keys h]
  rfl

theorem countP_map_congr {α : Type} (pred : Nat × α → Bool) (g : Nat × α → Nat × α)
    (m : List (Nat × α)) (h : ∀ p ∈ m, pred (g p) = pred p) :
    List.countP pred (m.map g) = List.countP pred m := by
  induction m with
  | nil => rfl
  | cons p t ih =>
      rw [List.map_cons, List.countP_cons, List.countP_cons,
        h p (List.mem_cons_self _ _), ih (fun q hq => h q (List.mem_cons_of_mem _ hq))]

theorem countP_eraseKey_of_key_false {α : Type} (pred : Nat × α → Bool) (k : Nat)
    (m : List (Nat × α)) (h : ∀ p ∈ m, p.1 = k → pred p = false) :
    List.countP pred (eraseKey k m) = List.countP pred m := by
  induction m with
  | nil => rfl
  | cons p t ih =>
      have ht : ∀ q ∈ t, q.1 = k → pred q = false :=
        fun q hq => h q (List.mem_cons_of_mem _ hq)
      by_cases hp : p.1 = k
      · have he : eraseKey k (p :: t) = eraseKey k t := by simp [eraseKey, hp]
        rw [he, ih ht, List.countP_cons, h p (List.mem_cons_self _ _) hp]
        simp
      · have he : eraseKey k (p :: t) = p :: eraseKey k t := by simp [eraseKey, hp]
        rw [he, List.countP_cons, List.countP_cons, ih ht]

theorem countP_eq_one_of_unique_key {α : Type} (pred : Nat × α → Bool) {m : List (Nat × α)}
    {k : Nat} {v : α} (hnd : (keysOf m).Nodup) (hmem : (k, v) ∈ m)
    (hpos : pred (k, v) = true) (hneg : ∀ p ∈ m, p.1 ≠ k → pred p = false) :
    List.countP pred m = 1 := by
  induction m with
  | nil => simp at hmem
  | cons p t ih =>
      have hndt : (keysOf t).Nodup := (List.nodup_cons.1 hnd).2
      have hknotin : p.1 ∉ keysOf t := (List.nodup_cons.1 hnd).1
      rcases List.mem_cons.1 hmem with hm | hm
      · have hcz : List.countP pred t = 0 := by
          apply List.countP_eq_zero.2
          intro q hq
          have hqk : q.1 ≠ k := by
            intro hqk
            apply hknotin
            have hpk : p.1 = k := by rw [← hm]
            rw [hpk, ← hqk]
            exact List.mem_map.2 ⟨q, hq, rfl⟩
          have hf := hneg q (List.mem_cons_of_mem _ hq) hqk
          simp [hf]
        rw [List.countP_cons, hcz, ← hm, hpos]
        simp
      · have hkmem : k ∈ keysOf t := List.mem_map.2 ⟨(k, v), hm, rfl⟩
        have hpk : p.1 ≠ k := fun he => hknotin (he ▸ hkmem)
        have hnegt : ∀ q ∈ t, q.1 ≠ k → pred q = false :=
          fun q hq => hneg q (List.mem_cons_of_mem _ hq)
        rw [List.countP_cons, hneg p (List.mem_cons_self _ _) hpk,
          ih hndt hm hnegt]
        simp

theorem two_le_countP_of_two_mem {α : Type} (pred : Nat × α → Bool) {m : List (Nat × α)}
    {a b : Nat × α} (ha : a ∈ m) (hb : b ∈ m) (hne : a.1 ≠ b.1)
    (hpa : pred a = true) (hpb : pred b = true) : 2 ≤ List.countP pred m := by
  induction m with
  | nil => simp at ha
  | cons p t ih =>
      rcases List.mem_cons.1 ha with hpa1 | hat
      · have hbt : b ∈ t := by
          rcases List.mem_cons.1 hb with hb1 | h
          · exact absurd (by rw [hpa1, hb1]) hne
          · exact h
        have h1 : 1 ≤ List.countP pred t := by
          rw [List.countP_eq_length_filter]
          have : b ∈ t.filter pred := List.mem_filter.2 ⟨hbt, hpb⟩
          exact List.length_pos.2 (fun he => by simp [he] at this)
        rw [List.countP_cons, ← hpa1, hpa]
        simp only [if_true]
        omega
      · rcases List.mem_cons.1 hb with hb1 | hbt
        · have h1 : 1 ≤ List.countP pred t := by
            rw [List.countP_eq_length_filter]
            have : a ∈ t.filter pred := List.mem_filter.2 ⟨hat, hpa⟩
            exact List.length_pos.2 (fun he => by simp [he] at this)
          rw [List.countP_cons, ← hb1, hpb]
          simp only [if_true]
          omega
        · have := ih hat hbt
          rw [List.countP_cons]
          omega

end Jirrah

namespace Jirrah

theorem runOp_mock_ok {op : Op} {s s1 : DBState} {r : Option Nat}
    (h : applyOp op s = .ok (s1, r)) :
    runOp op (mockBackend s) = ⟨mockBackend s1, .ok r, true⟩ := by
  simp only [runOp, readDb, writeDb, mockBackend, Bool.false_eq_true, if_false, h]

theorem runOp_mock_error {op : Op} {s : DBState} {e : DbError}
    (h : applyOp op s = .error e) :
    runOp op (mockBackend s) = ⟨mockBackend s, .error e, false⟩ := by
  simp only [runOp, readDb, writeDb, mockBackend, Bool.false_eq_true, if_false, h]

theorem create_epic_step_eq (epic : Epic) (db : DBState) :
    create_epic_step epic db =
      ({ last_item_id := (db.last_item_id + 1) % U32LIM
         epics := insertKey ((db.last_item_id + 1) % U32LIM) epic db.epics
         stories := db.stories }, (db.last_item_id + 1) % U32LIM) := rfl

theorem create_story_step_none {story : Story} {epic_id : Nat} {db : DBState}
    (h : lookupKey epic_id db.epics = none) :
    create_story_step story epic_id db = .error (.createStoryNoEpic epic_id) := by
  simp only [create_story_step, h]

theorem create_story_step_some {story : Story} {epic_id : Nat} {db : DBState} {E : Epic}
    (h : lookupKey epic_id db.epics = some E) :
    create_story_step story epic_id db =
      .ok ({ last_item_id := (db.last_item_id + 1) % U32LIM
             epics := modifyKey epic_id
               (fun e => { e with stories := e.stories ++ [(db.last_item_id + 1) % U32LIM] })
               db.epics
             stories := insertKey ((db.last_item_id + 1) % U32LIM) story db.stories },
           (db.last_item_id + 1) % U32LIM) := by
  simp only [create_story_step, h]

theorem delete_epic_step_none {epic_id : Nat} {db : DBState}
    (h : lookupKey epic_id db.epics = none) :
    delete_epic_step epic_id db = .error (.deleteEpicNotFound epic_id) := by
  simp only [delete_epic_step, h]

theorem delete_epic_step_some {epic_id : Nat} {db : DBState} {E : Epic}
    (h : lookupKey epic_id db.epics = some E) :
    delete_epic_step epic_id db =
      .ok { last_item_id := db.last_item_id
            epics := eraseKey epic_id db.epics
            stories := erasesAll E.stories db.stories } := by
  simp only [delete_epic_step, removeKey, h]
  rfl

theorem delete_story_step_no_story {epic_id story_id : Nat} {db : DBState}
    (h : lookupKey story_id db.stories = none) :
    delete_story_step epic_id story_id db = .error (.deleteStoryNotFound story_id) := by
  simp only [delete_story_step, removeKey, h]

theorem delete_story_step_no_epic {epic_id story_id : Nat} {db : DBState} {st : Story}
    (hs : lookupKey story_id db.stories = some st)
    (he : lookupKey epic_id db.epics = none) :
    delete_story_step epic_id story_id db =
      .error (.deleteStoryEpicNotFound story_id epic_id) := by
  simp only [delete_story_step, removeKey, hs, he]

theorem delete_story_step_some {epic_id story_id : Nat} {db : DBState} {st : Story} {E : Epic}
    (hs : lookupKey story_id db.stories = some st)
    (he : lookupKey epic_id db.epics = some E) :
    delete_story_step epic_id story_id db =
      .ok { last_item_id := db.last_item_id
            epics := modifyKey epic_id
              (fun e => { e with stories := e.stories.filter (fun x => x ≠ story_id) })
              db.epics
            stories := eraseKey story_id db.stories } := by
  simp only [delete_story_step, removeKey, hs, he]

end Jirrah

namespace Jirrah

/-- C9: in `delete_epic`, once the initial lookup of the epic succeeds,
the subsequent removal from the epics collection always succeeds: the
"Failed to delete epic" branch is unreachable for every snapshot and
epic id. -/
theorem delete_epic_failed_branch_unreachable :
    ∀ (s : DBState) (eid k : Nat),
      delete_epic_step eid s ≠ .error (.deleteEpicFailed k) := by
  intro s eid k
  cases hl : lookupKey eid s.epics with
  | none => rw [delete_epic_step_none hl]; intro h; cases h
  | some E => rw [delete_epic_step_some hl]; intro h; cases h

/-- Closed instance of the C9 theorem at a concrete snapshot and id. -/
theorem delete_epic_failed_branch_unreachable_witness :
    delete_epic_step 1 wrapEpicState ≠ .error (.deleteEpicFailed 1) :=
  delete_epic_failed_branch_unreachable wrapEpicState 1 1

/-- C10: the new-identifier computation in `create_epic` and
`create_story` is `last_item_id + 1` in 32-bit arithmetic; whenever
`last_item_id < 2^32 - 1` the addition does not wrap, and at
`last_item_id = 2^32 - 1` it wraps to 0, which can collide with an
identifier already in use — so the bound is a genuine precondition for
identifier uniqueness. -/
theorem create_id_is_u32_succ :
    (∀ (e : Epic) (s : DBState),
        (create_epic_step e s).2 = (s.last_item_id + 1) % U32LIM) ∧
    (∀ (st : Story) (eid : Nat) (s s1 : DBState) (n : Nat),
        create_story_step st eid s = .ok (s1, n) →
        n = (s.last_item_id + 1) % U32LIM) ∧
    (∀ (e : Epic) (s : DBState), s.last_item_id < U32LIM - 1 →
        (create_epic_step e s).2 = s.last_item_id + 1) ∧
    ((create_epic_step sampleEpic wrapState).2 = 0 ∧ 0 ∈ keysOf wrapState.epics) := by
  refine ⟨fun e s => rfl, ?_, ?_, by decide⟩
  · intro st eid s s1 n h
    cases hl : lookupKey eid s.epics with
    | none => rw [create_story_step_none hl] at h; cases h
    | some E =>
        rw [create_story_step_some hl] at h
        cases h
        rfl
  · intro e s h
    have hU : U32LIM = 4294967296 := rfl
    have h2 : s.last_item_id + 1 < U32LIM := by omega
    simp [create_epic_step, Nat.mod_eq_of_lt h2]

/-- Closed instance of the C10 theorem: from the empty snapshot the first
identifier is 1. -/
theorem create_id_is_u32_succ_witness :
    (create_epic_step sampleEpic emptyDB).2 = emptyDB.last_item_id + 1 :=
  create_id_is_u32_succ.2.2.1 sampleEpic emptyDB (by decide)

/-- C2 as falsified: a failing `write_db` makes the operation return an
error even though the write was invoked. -/
theorem error_can_follow_write_invocation :
    (runOp (.createEpic sampleEpic) failWriteBackend).result = .error .writeError ∧
    (runOp (.createEpic sampleEpic) failWriteBackend).writeInvoked = true := by
  constructor <;> rfl

/-- C2 (amended): if an operation returns an error that is not a write
error — a read failure or a referential error — then `write_db` was never
invoked and the backend, its persisted snapshot included, is exactly as
before the call. -/
theorem error_before_write_leaves_backend_unchanged :
    ∀ (op : Op) (b : Backend) (err : DbError),
      (runOp op b).result = .error err →
      err ≠ .writeError →
      (runOp op b).writeInvoked = false ∧ (runOp op b).backend = b := by
  intro op b err h hne
  obtain ⟨p, rf, wf⟩ := b
  cases rf with
  | true =>
      constructor <;> rfl
  | false =>
      cases hap : applyOp op p with
      | error e =>
          constructor <;>
            simp only [runOp, readDb, writeDb, Bool.false_eq_true, if_false, hap]
      | ok pr =>
          obtain ⟨s1, r⟩ := pr
          cases wf with
          | false =>
              exfalso
              simp only [runOp, readDb, writeDb, Bool.false_eq_true, if_false, hap] at h
              cases h
          | true =>
              exfalso
              apply hne
              simp only [runOp, readDb, writeDb, if_true, Bool.false_eq_true, if_false,
                hap] at h
              cases h
              rfl

/-- Closed instance of the C2 theorem: deleting a missing epic on a
healthy backend invokes no write and leaves the backend unchanged. -/
theorem error_before_write_leaves_backend_unchanged_witness :
    (runOp (.deleteEpic 5) (mockBackend emptyDB)).writeInvoked = false ∧
    (runOp (.deleteEpic 5) (mockBackend emptyDB)).backend = mockBackend emptyDB :=
  error_before_write_leaves_backend_unchanged (.deleteEpic 5) (mockBackend emptyDB)
    (.deleteEpicNotFound 5) (by decide) (by decide)

end Jirrah

namespace Jirrah

/-- C4: `delete_story` fails with the story-not-found error when the
story id is absent; fails with the epic-not-found error when the story is
present but the epic id is absent; and on success the story is gone from
the stories collection and its id is gone from the named epic's story
list in the persisted snapshot. -/
theorem delete_story_spec :
    ∀ (s : DBState) (eid sid : Nat),
      (lookupKey sid s.stories = none →
        (delete_story eid sid (mockBackend s)).result =
          .error (.deleteStoryNotFound sid)) ∧
      (∀ st, lookupKey sid s.stories = some st → lookupKey eid s.epics = none →
        (delete_story eid sid (mockBackend s)).result =
          .error (.deleteStoryEpicNotFound sid eid)) ∧
      (∀ st E, lookupKey sid s.stories = some st → lookupKey eid s.epics = some E →
        (delete_story eid sid (mockBackend s)).result = .ok none ∧
        lookupKey sid (delete_story eid sid (mockBackend s)).backend.persisted.stories =
          none ∧
        ∀ E1,
          lookupKey eid (delete_story eid sid (mockBackend s)).backend.persisted.epics =
            some E1 → sid ∉ E1.stories) := by
  intro s eid sid
  refine ⟨?_, ?_, ?_⟩
  · intro hs
    have hstep : delete_story_step eid sid s = .error (.deleteStoryNotFound sid) :=
      delete_story_step_no_story hs
    have : applyOp (.deleteStory eid sid) s = .error (.deleteStoryNotFound sid) := by
      simp [applyOp, hstep, Except.map]
    rw [delete_story, runOp_mock_error this]
  · intro st hs he
    have hstep := delete_story_step_no_epic hs he
    have : applyOp (.deleteStory eid sid) s =
        .error (.deleteStoryEpicNotFound sid eid) := by
      simp [applyOp, hstep, Except.map]
    rw [delete_story, runOp_mock_error this]
  · intro st E hs he
    have hstep := delete_story_step_some hs he
    have hap : applyOp (.deleteStory eid sid) s =
        .ok ({ last_item_id := s.last_item_id
               epics := modifyKey eid
                 (fun e => { e with stories := e.stories.filter (fun x => x ≠ sid) })
                 s.epics
               stories := eraseKey sid s.stories }, none) := by
      simp [applyOp, hstep, Except.map]
    rw [delete_story, runOp_mock_ok hap]
    refine ⟨rfl, ?_, ?_⟩
    · show lookupKey sid (eraseKey sid s.stories) = none
      rw [lookupKey_eraseKey]
      simp
    · intro E1 hE1
      have hE1b : lookupKey eid (modifyKey eid
          (fun e => { e with stories := e.stories.filter (fun x => x ≠ sid) })
          s.epics) = some E1 := hE1
      rw [lookupKey_modifyKey_self, he] at hE1b
      simp only [Option.map] at hE1b
      cases Option.some.inj hE1b
      simp [List.mem_filter]

/-- Closed instance of the C4 theorem: deleting a missing story from a
snapshot with one epic fails with the story-not-found error. -/
theorem delete_story_spec_witness :
    (delete_story 1 9 (mockBackend wrapEpicState)).result =
      .error (.deleteStoryNotFound 9) :=
  (delete_story_spec wrapEpicState 1 9).1 (by decide)

/-- C7: `delete_epic` fails with the epic-not-found error and leaves the
backend untouched when the epic id is absent; when present it succeeds,
removes the epic and exactly the stories its list referenced, and leaves
`last_item_id` unchanged. -/
theorem delete_epic_spec :
    ∀ (s : DBState) (eid : Nat),
      (lookupKey eid s.epics = none →
        (delete_epic eid (mockBackend s)).result = .error (.deleteEpicNotFound eid) ∧
        (delete_epic eid (mockBackend s)).backend = mockBackend s) ∧
      (∀ E, lookupKey eid s.epics = some E →
        (delete_epic eid (mockBackend s)).result = .ok none ∧
        (delete_epic eid (mockBackend s)).backend.persisted.last_item_id =
          s.last_item_id ∧
        lookupKey eid (delete_epic eid (mockBackend s)).backend.persisted.epics = none ∧
        (∀ k, k ≠ eid →
          lookupKey k (delete_epic eid (mockBackend s)).backend.persisted.epics =
            lookupKey k s.epics) ∧
        (∀ sid, sid ∈ E.stories →
          lookupKey sid (delete_epic eid (mockBackend s)).backend.persisted.stories =
            none) ∧
        (∀ sid, sid ∉ E.stories →
          lookupKey sid (delete_epic eid (mockBackend s)).backend.persisted.stories =
            lookupKey sid s.stories)) := by
  intro s eid
  constructor
  · intro he
    have hap : applyOp (.deleteEpic eid) s = .error (.deleteEpicNotFound eid) := by
      simp [applyOp, delete_epic_step_none he, Except.map]
    rw [delete_epic, runOp_mock_error hap]
    exact ⟨rfl, rfl⟩
  · intro E he
    have hap : applyOp (.deleteEpic eid) s =
        .ok ({ last_item_id := s.last_item_id
               epics := eraseKey eid s.epics
               stories := erasesAll E.stories s.stories }, none) := by
      simp [applyOp, delete_epic_step_some he, Except.map]
    rw [delete_epic, runOp_mock_ok hap]
    refine ⟨rfl, rfl, ?_, ?_, ?_, ?_⟩
    · show lookupKey eid (eraseKey eid s.epics) = none
      rw [lookupKey_eraseKey]
      simp
    · intro k hk
      show lookupKey k (eraseKey eid s.epics) = lookupKey k s.epics
      rw [lookupKey_eraseKey, if_neg hk]
    · intro sid hsid
      show lookupKey sid (erasesAll E.stories s.stories) = none
      rw [lookupKey_erasesAll, if_pos hsid]
    · intro sid hsid
      show lookupKey sid (erasesAll E.stories s.stories) = lookupKey sid s.stories
      rw [lookupKey_erasesAll, if_neg hsid]

/-- Closed instance of the C7 theorem: deleting the only epic of a
two-item snapshot removes it together with its story and keeps the
counter. -/
theorem delete_epic_spec_witness :
    (delete_epic 1 (mockBackend
        { last_item_id := 2
          epics := [(1, { sampleEpic with stories := [2] })]
          stories := [(2, sampleStory)] })).result = .ok none ∧
    (delete_epic 1 (mockBackend
        { last_item_id := 2
          epics := [(1, { sampleEpic with stories := [2] })]
          stories := [(2, sampleStory)] })).backend.persisted.last_item_id = 2 ∧
    lookupKey 2 (delete_epic 1 (mockBackend
        { last_item_id := 2
          epics := [(1, { sampleEpic with stories := [2] })]
          stories := [(2, sampleStory)] })).backend.persisted.stories = none := by
  have h := (delete_epic_spec
    { last_item_id := 2
      epics := [(1, { sampleEpic with stories := [2] })]
      stories := [(2, sampleStory)] } 1).2
    { sampleEpic with stories := [2] } (by decide)
  exact ⟨h.1, h.2.1, h.2.2.2.2.1 2 (by decide)⟩

end Jirrah

namespace Jirrah

/-- C6 as falsified: with `last_item_id = 2^32 - 1` a successful
`create_story` wraps the counter to 0 instead of incrementing it by 1. -/
theorem create_story_wraps_at_max :
    ((create_story_step sampleStory 1 wrapEpicState).map
        (fun r => (r.1.last_item_id, r.2))) = .ok (0, 0) ∧
    wrapEpicState.last_item_id + 1 ≠ 0 := by
  constructor
  · rfl
  · decide

/-- C6 (amended): `create_story` fails with the epic-not-found error when
the epic id is absent; when the epic exists and `last_item_id < 2^32 - 1`
it succeeds, increments `last_item_id` by exactly 1, inserts the story
under the new identifier, and appends that identifier to the named epic's
story list exactly once (at the end). -/
theorem create_story_spec :
    ∀ (s : DBState) (st : Story) (eid : Nat),
      (lookupKey eid s.epics = none →
        create_story_step st eid s = .error (.createStoryNoEpic eid)) ∧
      (∀ E, lookupKey eid s.epics = some E → s.last_item_id < U32LIM - 1 →
        create_story_step st eid s =
          .ok ({ last_item_id := s.last_item_id + 1
                 epics := modifyKey eid
                   (fun e => { e with stories := e.stories ++ [s.last_item_id + 1] })
                   s.epics
                 stories := insertKey (s.last_item_id + 1) st s.stories },
               s.last_item_id + 1) ∧
        lookupKey (s.last_item_id + 1)
          (insertKey (s.last_item_id + 1) st s.stories) = some st ∧
        lookupKey eid
          (modifyKey eid
            (fun e => { e with stories := e.stories ++ [s.last_item_id + 1] })
            s.epics) = some { E with stories := E.stories ++ [s.last_item_id + 1] }) := by
  intro s st eid
  constructor
  · intro he
    exact create_story_step_none he
  · intro E he hlt
    have hU : U32LIM = 4294967296 := rfl
    have hmod : (s.last_item_id + 1) % U32LIM = s.last_item_id + 1 :=
      Nat.mod_eq_of_lt (by omega)
    refine ⟨?_, ?_, ?_⟩
    · rw [create_story_step_some he, hmod]
    · exact lookupKey_insertKey_self _ _ _
    · rw [lookupKey_modifyKey_self, he]
      rfl

/-- Closed instance of the C6 theorem: creating a story under a missing
epic fails with the epic-not-found error. -/
theorem create_story_spec_witness :
    create_story_step sampleStory 7 emptyDB = .error (.createStoryNoEpic 7) :=
  (create_story_spec emptyDB sampleStory 7).1 (by decide)

/-- C5 as falsified: with `last_item_id = 2^32 - 1` a `create_epic`
returns identifier 0, not `last_item_id + 1`. -/
theorem create_epic_wraps_at_max :
    (create_epic sampleEpic (mockBackend wrapEmptyState)).result = .ok (some 0) ∧
    wrapEmptyState.last_item_id + 1 ≠ 0 := by
  constructor
  · rfl
  · decide

/-- C5 (amended): for every snapshot with `last_item_id < 2^32 - 1`,
`create_epic` succeeds, returns `last_item_id + 1`, stores the given epic
unchanged under that identifier, and advances the counter; ids returned
by a run of create-epic calls short enough not to wrap are consecutive
and pairwise distinct. -/
theorem create_epic_spec :
    (∀ (s : DBState) (e : Epic), s.last_item_id < U32LIM - 1 →
      (create_epic e (mockBackend s)).result = .ok (some (s.last_item_id + 1)) ∧
      (create_epic e (mockBackend s)).backend.persisted.last_item_id =
        s.last_item_id + 1 ∧
      lookupKey (s.last_item_id + 1)
        (create_epic e (mockBackend s)).backend.persisted.epics = some e ∧
      (create_epic e (mockBackend s)).backend.persisted.stories = s.stories) ∧
    (∀ (es : List Epic) (s : DBState), s.last_item_id + es.length < U32LIM →
      (create_epics es s).2 = List.range' (s.last_item_id + 1) es.length ∧
      (create_epics es s).2.Nodup ∧
      (create_epics es s).1.last_item_id = s.last_item_id + es.length) := by
  have hU : U32LIM = 4294967296 := rfl
  constructor
  · intro s e hlt
    have hmod : (s.last_item_id + 1) % U32LIM = s.last_item_id + 1 :=
      Nat.mod_eq_of_lt (by omega)
    have hap : applyOp (.createEpic e) s =
        .ok ({ last_item_id := s.last_item_id + 1
               epics := insertKey (s.last_item_id + 1) e s.epics
               stories := s.stories }, some (s.last_item_id + 1)) := by
      simp [applyOp, create_epic_step_eq, hmod]
    rw [create_epic, runOp_mock_ok hap]
    refine ⟨rfl, rfl, ?_, rfl⟩
    exact lookupKey_insertKey_self _ _ _
  · intro es
    induction es with
    | nil =>
        intro s hlen
        exact ⟨rfl, List.nodup_nil, rfl⟩
    | cons e rest ih =>
        intro s hlen
        simp only [List.length_cons] at hlen
        have hmod : (s.last_item_id + 1) % U32LIM = s.last_item_id + 1 :=
          Nat.mod_eq_of_lt (by omega)
        have hstate : (create_epic_step e s).1.last_item_id = s.last_item_id + 1 := by
          simp [create_epic_step_eq, hmod]
        have hid : (create_epic_step e s).2 = s.last_item_id + 1 := by
          simp [create_epic_step_eq, hmod]
        have hih := ih (create_epic_step e s).1 (by rw [hstate]; omega)
        refine ⟨?_, ?_, ?_⟩
        · show (create_epic_step e s).2 :: (create_epics rest (create_epic_step e s).1).2 =
            List.range' (s.last_item_id + 1) (rest.length + 1)
          rw [hid, hih.1, hstate, List.range'_succ]
        · show ((create_epic_step e s).2 ::
            (create_epics rest (create_epic_step e s).1).2).Nodup
          rw [hid, hih.1, hstate, ← List.range'_succ]
          exact List.nodup_range' _ _
        · show (create_epics rest (create_epic_step e s).1).1.last_item_id =
            s.last_item_id + (rest.length + 1)
          rw [hih.2.2, hstate]
          omega

/-- Closed instance of the C5 theorem: the first two creates from the
empty snapshot return 1 and 2. -/
theorem create_epic_spec_witness :
    (create_epics [sampleEpic, sampleEpic] emptyDB).2 = [1, 2] ∧
    (create_epics [sampleEpic, sampleEpic] emptyDB).2.Nodup := by
  have h := create_epic_spec.2 [sampleEpic, sampleEpic] emptyDB (by decide)
  exact ⟨by rw [h.1]; rfl, h.2.1⟩

end Jirrah

namespace Jirrah

theorem mem_keysOf_insertKey {α : Type} {m : List (Nat × α)} {k v : Nat} {e : α}
    (h : k ∈ keysOf (insertKey v e m)) : k = v ∨ k ∈ keysOf m := by
  simp only [insertKey, keysOf, List.map_cons, List.mem_cons] at h
  rcases h with h | h
  · exact Or.inl h
  · exact Or.inr (keysOf_eraseKey_subset m v h)

/-- One successful operation keeps every key at or below the counter,
never decreases the counter, and advances it by at most 1 — provided the
counter is not at the wrap point. -/
theorem applyOp_keys_bound {op : Op} {s s1 : DBState} {r : Option Nat}
    (h : applyOp op s = .ok (s1, r))
    (hke : ∀ k ∈ keysOf s.epics, k ≤ s.last_item_id)
    (hks : ∀ k ∈ keysOf s.stories, k ≤ s.last_item_id)
    (hlt : s.last_item_id + 1 < U32LIM) :
    (∀ k ∈ keysOf s1.epics, k ≤ s1.last_item_id) ∧
    (∀ k ∈ keysOf s1.stories, k ≤ s1.last_item_id) ∧
    s.last_item_id ≤ s1.last_item_id ∧
    s1.last_item_id ≤ s.last_item_id + 1 := by
  have hmod : (s.last_item_id + 1) % U32LIM = s.last_item_id + 1 :=
    Nat.mod_eq_of_lt hlt
  cases op with
  | createEpic e =>
      simp only [applyOp, create_epic_step_eq, hmod, Except.ok.injEq, Prod.mk.injEq] at h
      obtain ⟨h1, h2⟩ := h
      subst h1
      refine ⟨?_, ?_, Nat.le_succ _, Nat.le_refl _⟩
      · intro k hk
        rcases mem_keysOf_insertKey hk with hk | hk
        · show k ≤ s.last_item_id + 1
          omega
        · exact Nat.le_succ_of_le (hke k hk)
      · intro k hk
        exact Nat.le_succ_of_le (hks k hk)
  | createStory st eid =>
      cases he : lookupKey eid s.epics with
      | none =>
          rw [applyOp, create_story_step_none he] at h
          cases h
      | some E =>
          rw [applyOp, create_story_step_some he] at h
          simp only [Except.map, Except.ok.injEq, Prod.mk.injEq, hmod] at h
          obtain ⟨h1, h2⟩ := h
          subst h1
          refine ⟨?_, ?_, Nat.le_succ _, Nat.le_refl _⟩
          · intro k hk
            rw [keysOf_modifyKey] at hk
            exact Nat.le_succ_of_le (hke k hk)
          · intro k hk
            rcases mem_keysOf_insertKey hk with hk | hk
            · show k ≤ s.last_item_id + 1
              omega
            · exact Nat.le_succ_of_le (hks k hk)
  | deleteEpic eid =>
      cases he : lookupKey eid s.epics with
      | none =>
          rw [applyOp, delete_epic_step_none he] at h
          cases h
      | some E =>
          rw [applyOp, delete_epic_step_some he] at h
          simp only [Except.map, Except.ok.injEq, Prod.mk.injEq] at h
          obtain ⟨h1, h2⟩ := h
          subst h1
          refine ⟨?_, ?_, Nat.le_refl _, Nat.le_succ _⟩
          · intro k hk
            exact hke k (keysOf_eraseKey_subset _ _ hk)
          · intro k hk
            exact hks k (keysOf_erasesAll_subset _ _ hk)
  | deleteStory eid sid =>
      cases hs : lookupKey sid s.stories with
      | none =>
          rw [applyOp, delete_story_step_no_story hs] at h
          cases h
      | some st =>
          cases he : lookupKey eid s.epics with
          | none =>
              rw [applyOp, delete_story_step_no_epic hs he] at h
              cases h
          | some E =>
              rw [applyOp, delete_story_step_some hs he] at h
              simp only [Except.map, Except.ok.injEq, Prod.mk.injEq] at h
              obtain ⟨h1, h2⟩ := h
              subst h1
              refine ⟨?_, ?_, Nat.le_refl _, Nat.le_succ _⟩
              · intro k hk
                rw [keysOf_modifyKey] at hk
                exact hke k hk
              · intro k hk
                exact hks k (keysOf_eraseKey_subset _ _ hk)
  | updateEpicStatus eid status =>
      cases he : lookupKey eid s.epics with
      | none =>
          simp only [applyOp, update_epic_status_step, he, Except.map] at h
          exact Except.noConfusion h
      | some E =>
          simp only [applyOp, update_epic_status_step, he, Except.map,
            Except.ok.injEq, Prod.mk.injEq] at h
          obtain ⟨h1, h2⟩ := h
          subst h1
          refine ⟨?_, hks, Nat.le_refl _, Nat.le_succ _⟩
          intro k hk
          rw [keysOf_modifyKey] at hk
          exact hke k hk
  | updateStoryStatus sid status =>
      cases hs : lookupKey sid s.stories with
      | none =>
          simp only [applyOp, update_story_status_step, hs, Except.map] at h
          exact Except.noConfusion h
      | some st =>
          simp only [applyOp, update_story_status_step, hs, Except.map,
            Except.ok.injEq, Prod.mk.injEq] at h
          obtain ⟨h1, h2⟩ := h
          subst h1
          refine ⟨hke, ?_, Nat.le_refl _, Nat.le_succ _⟩
          intro k hk
          rw [keysOf_modifyKey] at hk
          exact hks k hk

/-- Along a run of successful operations the counter never decreases,
keys stay bounded by it, and it grows by at most the number of
operations. -/
theorem steps_last_bound {s t : DBState} {ops : List Op}
    (h : Steps s ops t)
    (hke : ∀ k ∈ keysOf s.epics, k ≤ s.last_item_id)
    (hks : ∀ k ∈ keysOf s.stories, k ≤ s.last_item_id)
    (hlen : s.last_item_id + ops.length < U32LIM) :
    (∀ k ∈ keysOf t.epics, k ≤ t.last_item_id) ∧
    (∀ k ∈ keysOf t.stories, k ≤ t.last_item_id) ∧
    s.last_item_id ≤ t.last_item_id ∧
    t.last_item_id ≤ s.last_item_id + ops.length := by
  induction h with
  | nil s => exact ⟨hke, hks, Nat.le_refl _, Nat.le_refl _⟩
  | @cons s s1 t op ops r hop htail ih =>
      have hlen1 : s.last_item_id + 1 < U32LIM := by
        simp only [List.length_cons] at hlen
        omega
      obtain ⟨h1, h2, h3, h4⟩ := applyOp_keys_bound hop hke hks hlen1
      have hlen2 : s1.last_item_id + ops.length < U32LIM := by
        simp only [List.length_cons] at hlen
        omega
      obtain ⟨g1, g2, g3, g4⟩ := ih h1 h2 hlen2
      refine ⟨g1, g2, Nat.le_trans h3 g3, ?_⟩
      simp only [List.length_cons]
      omega

end Jirrah

namespace Jirrah

/-- C3 as falsified: create an epic and delete it again; both collections
are empty but `last_item_id` is 1, not the maximum (0) of the empty
collections. -/
theorem last_item_id_not_max_after_delete :
    Steps emptyDB [Op.createEpic sampleEpic, Op.deleteEpic 1]
      { last_item_id := 1, epics := [], stories := [] } ∧
    ({ last_item_id := 1, epics := [], stories := [] } : DBState).epics = [] ∧
    ({ last_item_id := 1, epics := [], stories := [] } : DBState).stories = [] ∧
    ({ last_item_id := 1, epics := [], stories := [] } : DBState).last_item_id ≠ 0 := by
  refine ⟨?_, rfl, rfl, by decide⟩
  refine Steps.cons (show applyOp (Op.createEpic sampleEpic) emptyDB =
    .ok ({ last_item_id := 1, epics := [(1, sampleEpic)], stories := [] },
      some 1) from rfl) ?_
  refine Steps.cons (show applyOp (Op.deleteEpic 1)
      { last_item_id := 1, epics := [(1, sampleEpic)], stories := [] } =
    .ok ({ last_item_id := 1, epics := [], stories := [] }, none) from rfl) ?_
  exact Steps.nil _

/-- C3 (amended): starting from the empty snapshot, along any run of
successful operations short enough for the u32 counter not to wrap,
`last_item_id` is non-decreasing from each persisted snapshot to the
next and is an upper bound on every identifier present in either
collection; it need not equal the maximum present (deletions lower the
maximum but never the counter). -/
theorem last_item_id_monotone_and_bounds_ids :
    ∀ (ops1 ops2 : List Op) (s1 s2 : DBState),
      Steps emptyDB ops1 s1 → Steps s1 ops2 s2 →
      ops1.length + ops2.length < U32LIM →
      s1.last_item_id ≤ s2.last_item_id ∧
      (∀ k ∈ keysOf s2.epics, k ≤ s2.last_item_id) ∧
      (∀ k ∈ keysOf s2.stories, k ≤ s2.last_item_id) := by
  intro ops1 ops2 s1 s2 h1 h2 hlen
  have hke : ∀ k ∈ keysOf emptyDB.epics, k ≤ emptyDB.last_item_id := by
    intro k hk
    simp [emptyDB, keysOf] at hk
  have hks : ∀ k ∈ keysOf emptyDB.stories, k ≤ emptyDB.last_item_id := by
    intro k hk
    simp [emptyDB, keysOf] at hk
  have hb1 := steps_last_bound h1 hke hks
    (by show 0 + ops1.length < U32LIM; omega)
  have hb2 := steps_last_bound h2 hb1.1 hb1.2.1 (by
    have := hb1.2.2.2
    show s1.last_item_id + ops2.length < U32LIM
    simp [emptyDB] at this
    omega)
  exact ⟨hb2.2.2.1, hb2.1, hb2.2.1⟩

/-- Closed instance of the C3 theorem on the counterexample run: after
create-then-delete the counter (1) bounds all remaining identifiers and
did not decrease. -/
theorem last_item_id_monotone_and_bounds_ids_witness :
    ({ last_item_id := 1, epics := [(1, sampleEpic)], stories := [] } :
        DBState).last_item_id ≤
      ({ last_item_id := 1, epics := [], stories := [] } : DBState).last_item_id := by
  have h := last_item_id_monotone_and_bounds_ids
    [Op.createEpic sampleEpic] [Op.deleteEpic 1]
    { last_item_id := 1, epics := [(1, sampleEpic)], stories := [] }
    { last_item_id := 1, epics := [], stories := [] }
    (Steps.cons (show applyOp (Op.createEpic sampleEpic) emptyDB =
      .ok ({ last_item_id := 1, epics := [(1, sampleEpic)], stories := [] },
        some 1) from rfl) (Steps.nil _))
    (Steps.cons (show applyOp (Op.deleteEpic 1)
        { last_item_id := 1, epics := [(1, sampleEpic)], stories := [] } =
      .ok ({ last_item_id := 1, epics := [], stories := [] }, none) from rfl)
      (Steps.nil _))
    (by decide)
  exact h.1

end Jirrah

namespace Jirrah

theorem mem_eq_of_nodup_keys {α : Type} {m : List (Nat × α)}
    (hnd : (keysOf m).Nodup) {p q : Nat × α}
    (hp : p ∈ m) (hq : q ∈ m) (hk : p.1 = q.1) : p = q := by
  induction m with
  | nil => simp at hp
  | cons x t ih =>
      have hxt : x.1 ∉ keysOf t := (List.nodup_cons.1 hnd).1
      have hndt := (List.nodup_cons.1 hnd).2
      rcases List.mem_cons.1 hp with hp1 | hpt
      · rcases List.mem_cons.1 hq with hq1 | hqt
        · rw [hp1, hq1]
        · exfalso
          apply hxt
          rw [← hp1, hk]
          exact List.mem_map.2 ⟨q, hqt, rfl⟩
      · rcases List.mem_cons.1 hq with hq1 | hqt
        · exfalso
          apply hxt
          rw [← hq1, ← hk]
          exact List.mem_map.2 ⟨p, hpt, rfl⟩
        · exact ih hndt hpt hqt

/-- The epic invariant survives `create_epic` when the new epic carries an
empty story list and the counter does not wrap. -/
theorem WF_create_epic_state {s : DBState} {e : Epic}
    (hwf : WF s) (hst : e.stories = []) (hlt : s.last_item_id + 1 < U32LIM) :
    WF { last_item_id := s.last_item_id + 1
         epics := insertKey (s.last_item_id + 1) e s.epics
         stories := s.stories } := by
  obtain ⟨hke, hks, hnde, hnds, hA, hB⟩ := hwf
  have hfresh : s.last_item_id + 1 ∉ keysOf s.epics := by
    intro hmem
    have := hke _ hmem
    omega
  have hins : insertKey (s.last_item_id + 1) e s.epics =
      (s.last_item_id + 1, e) :: s.epics := by
    rw [insertKey, eraseKey_of_not_mem_keys hfresh]
  refine ⟨?_, ?_, ?_, ?_, ?_, ?_⟩
  · show ∀ k ∈ keysOf (insertKey (s.last_item_id + 1) e s.epics), k ≤ s.last_item_id + 1
    intro k hk
    rcases mem_keysOf_insertKey hk with hk | hk
    · omega
    · exact Nat.le_succ_of_le (hke k hk)
  · show ∀ k ∈ keysOf s.stories, k ≤ s.last_item_id + 1
    intro k hk
    exact Nat.le_succ_of_le (hks k hk)
  · show (keysOf (insertKey (s.last_item_id + 1) e s.epics)).Nodup
    rw [hins]
    exact List.nodup_cons.2 ⟨hfresh, hnde⟩
  · exact hnds
  · show ∀ p ∈ insertKey (s.last_item_id + 1) e s.epics,
      ∀ sid ∈ p.2.stories, (lookupKey sid s.stories).isSome
    rw [hins]
    intro p hp sid hsid
    rcases List.mem_cons.1 hp with hp1 | hp2
    · rw [hp1] at hsid
      simp only [hst] at hsid
      simp at hsid
    · exact hA p hp2 sid hsid
  · show ∀ q ∈ s.stories,
      List.countP (fun p => decide (q.1 ∈ p.2.stories))
        (insertKey (s.last_item_id + 1) e s.epics) = 1
    rw [hins]
    intro q hq
    rw [List.countP_cons]
    have hfalse : decide (q.1 ∈ e.stories) = false := by
      rw [hst]
      simp
    rw [hfalse, hB q hq]
    simp

/-- The invariant survives an epic status update. -/
theorem WF_update_epic_state {s : DBState} {eid : Nat} {status : Status}
    (hwf : WF s) :
    WF { s with
         epics := modifyKey eid (fun e => { e with status := status }) s.epics } := by
  obtain ⟨hke, hks, hnde, hnds, hA, hB⟩ := hwf
  refine ⟨?_, hks, ?_, hnds, ?_, ?_⟩
  · show ∀ k ∈ keysOf (modifyKey eid (fun e => { e with status := status }) s.epics),
      k ≤ s.last_item_id
    rw [keysOf_modifyKey]
    exact hke
  · show (keysOf (modifyKey eid (fun e => { e with status := status }) s.epics)).Nodup
    rw [keysOf_modifyKey]
    exact hnde
  · show ∀ p ∈ modifyKey eid (fun e => { e with status := status }) s.epics,
      ∀ sid ∈ p.2.stories, (lookupKey sid s.stories).isSome
    intro p hp sid hsid
    rcases mem_modifyKey hp with ⟨hp2, _⟩ | ⟨v, hv, hp2⟩
    · exact hA p hp2 sid hsid
    · rw [hp2] at hsid
      exact hA (eid, v) hv sid hsid
  · show ∀ q ∈ s.stories,
      List.countP (fun p => decide (q.1 ∈ p.2.stories))
        (modifyKey eid (fun e => { e with status := status }) s.epics) = 1
    intro q hq
    rw [modifyKey, countP_map_congr]
    · exact hB q hq
    · intro p hp
      by_cases hpk : p.1 = eid
      · simp [hpk]
      · simp [hpk]

/-- The invariant survives a story status update. -/
theorem WF_update_story_state {s : DBState} {sid : Nat} {status : Status}
    (hwf : WF s) :
    WF { s with
         stories := modifyKey sid (fun st => { st with status := status }) s.stories } := by
  obtain ⟨hke, hks, hnde, hnds, hA, hB⟩ := hwf
  refine ⟨hke, ?_, hnde, ?_, ?_, ?_⟩
  · show ∀ k ∈ keysOf (modifyKey sid (fun st => { st with status := status }) s.stories),
      k ≤ s.last_item_id
    rw [keysOf_modifyKey]
    exact hks
  · show (keysOf (modifyKey sid
      (fun st => { st with status := status }) s.stories)).Nodup
    rw [keysOf_modifyKey]
    exact hnds
  · show ∀ p ∈ s.epics, ∀ t ∈ p.2.stories,
      (lookupKey t (modifyKey sid
        (fun st => { st with status := status }) s.stories)).isSome
    intro p hp t ht
    by_cases hts : t = sid
    · rw [hts, lookupKey_modifyKey_self]
      have := hA p hp t ht
      rw [hts] at this
      cases hl : lookupKey sid s.stories with
      | none => rw [hl] at this; simp at this
      | some v => simp
    · rw [lookupKey_modifyKey_ne _ _ hts]
      exact hA p hp t ht
  · show ∀ q ∈ modifyKey sid (fun st => { st with status := status }) s.stories,
      List.countP (fun p => decide (q.1 ∈ p.2.stories)) s.epics = 1
    intro q hq
    rcases mem_modifyKey hq with ⟨hq2, _⟩ | ⟨v, hv, hq2⟩
    · exact hB q hq2
    · rw [hq2]
      exact hB (sid, v) hv

end Jirrah

namespace Jirrah

/-- The invariant survives `delete_epic`: the removed epic was the sole
owner of each of its stories, so erasing them orphans nothing. -/
theorem WF_delete_epic_state {s : DBState} {eid : Nat} {E : Epic}
    (hwf : WF s) (he : lookupKey eid s.epics = some E) :
    WF { last_item_id := s.last_item_id
         epics := eraseKey eid s.epics
         stories := erasesAll E.stories s.stories } := by
  obtain ⟨hke, hks, hnde, hnds, hA, hB⟩ := hwf
  have hEmem : (eid, E) ∈ s.epics := mem_of_lookupKey he
  refine ⟨?_, ?_, ?_, ?_, ?_, ?_⟩
  · show ∀ k ∈ keysOf (eraseKey eid s.epics), k ≤ s.last_item_id
    intro k hk
    exact hke k (keysOf_eraseKey_subset _ _ hk)
  · show ∀ k ∈ keysOf (erasesAll E.stories s.stories), k ≤ s.last_item_id
    intro k hk
    exact hks k (keysOf_erasesAll_subset _ _ hk)
  · show (keysOf (eraseKey eid s.epics)).Nodup
    exact nodup_keysOf_eraseKey _ hnde
  · show (keysOf (erasesAll E.stories s.stories)).Nodup
    exact nodup_keysOf_erasesAll _ hnds
  · show ∀ p ∈ eraseKey eid s.epics, ∀ t ∈ p.2.stories,
      (lookupKey t (erasesAll E.stories s.stories)).isSome
    intro p hp t ht
    obtain ⟨hpm, hpne⟩ := mem_eraseKey.1 hp
    have htE : t ∉ E.stories := by
      intro htE
      have hsome := hA p hpm t ht
      cases hl : lookupKey t s.stories with
      | none => rw [hl] at hsome; simp at hsome
      | some stv =>
          have hmem := mem_of_lookupKey hl
          have h2 := two_le_countP_of_two_mem
            (fun pp => decide (t ∈ pp.2.stories)) hpm hEmem
            hpne (by simp [ht]) (by simp [htE])
          have h1 : List.countP (fun pp => decide (t ∈ pp.2.stories)) s.epics = 1 :=
            hB (t, stv) hmem
          omega
    rw [lookupKey_erasesAll, if_neg htE]
    exact hA p hpm t ht
  · show ∀ q ∈ erasesAll E.stories s.stories,
      List.countP (fun p => decide (q.1 ∈ p.2.stories)) (eraseKey eid s.epics) = 1
    intro q hq
    obtain ⟨hqm, hqnE⟩ := (mem_erasesAll _ _ _).1 hq
    rw [countP_eraseKey_of_key_false]
    · exact hB q hqm
    · intro p hpm hpk
      have hpeq : p = (eid, E) := mem_eq_of_nodup_keys hnde hpm hEmem hpk
      rw [hpeq]
      simp [hqnE]

/-- The invariant survives `delete_story` when the named epic is the one
that references the story. -/
theorem WF_delete_story_state {s : DBState} {eid sid : Nat} {E : Epic} {st : Story}
    (hwf : WF s) (he : lookupKey eid s.epics = some E) (hsidE : sid ∈ E.stories)
    (hs : lookupKey sid s.stories = some st) :
    WF { last_item_id := s.last_item_id
         epics := modifyKey eid
           (fun e => { e with stories := e.stories.filter (fun x => x ≠ sid) }) s.epics
         stories := eraseKey sid s.stories } := by
  obtain ⟨hke, hks, hnde, hnds, hA, hB⟩ := hwf
  have hEmem : (eid, E) ∈ s.epics := mem_of_lookupKey he
  refine ⟨?_, ?_, ?_, ?_, ?_, ?_⟩
  · show ∀ k ∈ keysOf (modifyKey eid
      (fun e => { e with stories := e.stories.filter (fun x => x ≠ sid) }) s.epics),
      k ≤ s.last_item_id
    rw [keysOf_modifyKey]
    exact hke
  · show ∀ k ∈ keysOf (eraseKey sid s.stories), k ≤ s.last_item_id
    intro k hk
    exact hks k (keysOf_eraseKey_subset _ _ hk)
  · show (keysOf (modifyKey eid
      (fun e => { e with stories := e.stories.filter (fun x => x ≠ sid) })
      s.epics)).Nodup
    rw [keysOf_modifyKey]
    exact hnde
  · show (keysOf (eraseKey sid s.stories)).Nodup
    exact nodup_keysOf_eraseKey _ hnds
  · show ∀ p ∈ modifyKey eid
      (fun e => { e with stories := e.stories.filter (fun x => x ≠ sid) }) s.epics,
      ∀ t ∈ p.2.stories, (lookupKey t (eraseKey sid s.stories)).isSome
    intro p hp t ht
    rcases mem_modifyKey hp with ⟨hpm, hpne⟩ | ⟨v, hv, hpe⟩
    · have htsid : t ≠ sid := by
        intro hteq
        rw [hteq] at ht
        have h2 := two_le_countP_of_two_mem
          (fun pp => decide (sid ∈ pp.2.stories)) hpm hEmem
          hpne (by simp [ht]) (by simp [hsidE])
        have h1 : List.countP (fun pp => decide (sid ∈ pp.2.stories)) s.epics = 1 :=
          hB (sid, st) (mem_of_lookupKey hs)
        omega
      rw [lookupKey_eraseKey, if_neg htsid]
      exact hA p hpm t ht
    · rw [hpe] at ht
      have hmf := List.mem_filter.1 ht
      have htv : t ∈ v.stories := hmf.1
      have htsid : t ≠ sid := by simpa using hmf.2
      rw [lookupKey_eraseKey, if_neg htsid]
      exact hA (eid, v) hv t htv
  · show ∀ q ∈ eraseKey sid s.stories,
      List.countP (fun p => decide (q.1 ∈ p.2.stories))
        (modifyKey eid
          (fun e => { e with stories := e.stories.filter (fun x => x ≠ sid) })
          s.epics) = 1
    intro q hq
    obtain ⟨hqm, hqne⟩ := mem_eraseKey.1 hq
    rw [modifyKey, countP_map_congr]
    · exact hB q hqm
    · intro p hp
      by_cases hpk : p.1 = eid
      · simp only [hpk, if_pos]
        have hiff : (q.1 ∈ p.2.stories.filter (fun x => x ≠ sid)) ↔
            q.1 ∈ p.2.stories := by
          rw [List.mem_filter]
          constructor
          · exact fun h => h.1
          · intro h
            exact ⟨h, by simpa using hqne⟩
        exact decide_eq_decide.2 hiff
      · simp [hpk]

/-- The invariant survives `create_story` below the wrap point: the fresh
identifier is referenced exactly once, by the named epic. -/
theorem WF_create_story_state {s : DBState} {eid : Nat} {E : Epic} {st : Story}
    (hwf : WF s) (he : lookupKey eid s.epics = some E)
    (hlt : s.last_item_id + 1 < U32LIM) :
    WF { last_item_id := s.last_item_id + 1
         epics := modifyKey eid
           (fun e => { e with stories := e.stories ++ [s.last_item_id + 1] }) s.epics
         stories := insertKey (s.last_item_id + 1) st s.stories } := by
  obtain ⟨hke, hks, hnde, hnds, hA, hB⟩ := hwf
  have hEmem : (eid, E) ∈ s.epics := mem_of_lookupKey he
  have hfresh : s.last_item_id + 1 ∉ keysOf s.stories := by
    intro hmem
    have := hks _ hmem
    omega
  have hins : insertKey (s.last_item_id + 1) st s.stories =
      (s.last_item_id + 1, st) :: s.stories := by
    rw [insertKey, eraseKey_of_not_mem_keys hfresh]
  have hfreshlist : ∀ p ∈ s.epics, (s.last_item_id + 1) ∉ p.2.stories := by
    intro p hp hmem
    have hsome := hA p hp _ hmem
    cases hl : lookupKey (s.last_item_id + 1) s.stories with
    | none => rw [hl] at hsome; simp at hsome
    | some v =>
        have := hks _ (mem_keys_of_lookupKey hl)
        omega
  refine ⟨?_, ?_, ?_, ?_, ?_, ?_⟩
  · show ∀ k ∈ keysOf (modifyKey eid
      (fun e => { e with stories := e.stories ++ [s.last_item_id + 1] }) s.epics),
      k ≤ s.last_item_id + 1
    rw [keysOf_modifyKey]
    intro k hk
    exact Nat.le_succ_of_le (hke k hk)
  · show ∀ k ∈ keysOf (insertKey (s.last_item_id + 1) st s.stories),
      k ≤ s.last_item_id + 1
    intro k hk
    rcases mem_keysOf_insertKey hk with hk | hk
    · omega
    · exact Nat.le_succ_of_le (hks k hk)
  · show (keysOf (modifyKey eid
      (fun e => { e with stories := e.stories ++ [s.last_item_id + 1] })
      s.epics)).Nodup
    rw [keysOf_modifyKey]
    exact hnde
  · show (keysOf (insertKey (s.last_item_id + 1) st s.stories)).Nodup
    rw [hins]
    exact List.nodup_cons.2 ⟨hfresh, hnds⟩
  · show ∀ p ∈ modifyKey eid
      (fun e => { e with stories := e.stories ++ [s.last_item_id + 1] }) s.epics,
      ∀ t ∈ p.2.stories,
        (lookupKey t (insertKey (s.last_item_id + 1) st s.stories)).isSome
    intro p hp t ht
    rw [hins, lookupKey_cons]
    by_cases hnt : s.last_item_id + 1 = t
    · simp [hnt]
    · simp only [if_neg hnt]
      rcases mem_modifyKey hp with ⟨hpm, _⟩ | ⟨v, hv, hpe⟩
      · exact hA p hpm t ht
      · rw [hpe] at ht
        rcases List.mem_append.1 ht with htv | hteq
        · exact hA (eid, v) hv t htv
        · exfalso
          apply hnt
          exact (List.mem_singleton.1 hteq).symm
  · show ∀ q ∈ insertKey (s.last_item_id + 1) st s.stories,
      List.countP (fun p => decide (q.1 ∈ p.2.stories))
        (modifyKey eid
          (fun e => { e with stories := e.stories ++ [s.last_item_id + 1] })
          s.epics) = 1
    intro q hq
    rw [hins] at hq
    rcases List.mem_cons.1 hq with hq1 | hq2
    · rw [hq1]
      have hndm : (keysOf (modifyKey eid
          (fun e => { e with stories := e.stories ++ [s.last_item_id + 1] })
          s.epics)).Nodup := by
        rw [keysOf_modifyKey]
        exact hnde
      refine @countP_eq_one_of_unique_key Epic _ _ eid
        { E with stories := E.stories ++ [s.last_item_id + 1] } hndm ?_ ?_ ?_
      · exact List.mem_map.2 ⟨(eid, E), hEmem, by simp⟩
      · simp
      · intro p hp hpk
        rcases mem_modifyKey hp with ⟨hpm, _⟩ | ⟨v, hv, hpe⟩
        · simp [hfreshlist p hpm]
        · exfalso
          apply hpk
          rw [hpe]
    · have hqle := hks q.1 (List.mem_map.2 ⟨q, hq2, rfl⟩)
      have hqne : q.1 ≠ s.last_item_id + 1 := by omega
      rw [modifyKey, countP_map_congr]
      · exact hB q hq2
      · intro p hp
        by_cases hpk : p.1 = eid
        · simp only [hpk, if_pos]
          have hiff : (q.1 ∈ p.2.stories ++ [s.last_item_id + 1]) ↔
              q.1 ∈ p.2.stories := by
            simp [List.mem_append, hqne]
          exact decide_eq_decide.2 hiff
        · simp [hpk]

end Jirrah

namespace Jirrah

/-- One successful operation that obeys the calling discipline preserves
the full invariant, away from the counter wrap point. -/
theorem applyOp_preserves_WF {op : Op} {s s1 : DBState} {r : Option Nat}
    (h : applyOp op s = .ok (s1, r)) (hwf : WF s)
    (hlt : s.last_item_id + 1 < U32LIM)
    (hce : ∀ e, op = Op.createEpic e → e.stories = [])
    (hds : ∀ eid sid, op = Op.deleteStory eid sid →
      ∃ E, lookupKey eid s.epics = some E ∧ sid ∈ E.stories) :
    WF s1 := by
  have hmod : (s.last_item_id + 1) % U32LIM = s.last_item_id + 1 :=
    Nat.mod_eq_of_lt hlt
  cases op with
  | createEpic e =>
      have hst := hce e rfl
      simp only [applyOp, create_epic_step_eq, hmod, Except.ok.injEq,
        Prod.mk.injEq] at h
      obtain ⟨h1, h2⟩ := h
      subst h1
      exact WF_create_epic_state hwf hst hlt
  | createStory st eid =>
      cases he : lookupKey eid s.epics with
      | none => rw [applyOp, create_story_step_none he] at h; cases h
      | some E =>
          rw [applyOp, create_story_step_some he] at h
          simp only [Except.map, Except.ok.injEq, Prod.mk.injEq, hmod] at h
          obtain ⟨h1, h2⟩ := h
          subst h1
          exact WF_create_story_state hwf he hlt
  | deleteEpic eid =>
      cases he : lookupKey eid s.epics with
      | none => rw [applyOp, delete_epic_step_none he] at h; cases h
      | some E =>
          rw [applyOp, delete_epic_step_some he] at h
          simp only [Except.map, Except.ok.injEq, Prod.mk.injEq] at h
          obtain ⟨h1, h2⟩ := h
          subst h1
          exact WF_delete_epic_state hwf he
  | deleteStory eid sid =>
      obtain ⟨E, he, hsidE⟩ := hds eid sid rfl
      cases hs : lookupKey sid s.stories with
      | none => rw [applyOp, delete_story_step_no_story hs] at h; cases h
      | some st =>
          rw [applyOp, delete_story_step_some hs he] at h
          simp only [Except.map, Except.ok.injEq, Prod.mk.injEq] at h
          obtain ⟨h1, h2⟩ := h
          subst h1
          exact WF_delete_story_state hwf he hsidE hs
  | updateEpicStatus eid status =>
      cases he : lookupKey eid s.epics with
      | none =>
          simp only [applyOp, update_epic_status_step, he, Except.map] at h
          exact Except.noConfusion h
      | some E =>
          simp only [applyOp, update_epic_status_step, he, Except.map,
            Except.ok.injEq, Prod.mk.injEq] at h
          obtain ⟨h1, h2⟩ := h
          subst h1
          exact WF_update_epic_state hwf
  | updateStoryStatus sid status =>
      cases hs : lookupKey sid s.stories with
      | none =>
          simp only [applyOp, update_story_status_step, hs, Except.map] at h
          exact Except.noConfusion h
      | some st =>
          simp only [applyOp, update_story_status_step, hs, Except.map,
            Except.ok.injEq, Prod.mk.injEq] at h
          obtain ⟨h1, h2⟩ := h
          subst h1
          exact WF_update_story_state hwf

/-- The invariant is preserved along any disciplined run that cannot wrap
the counter. -/
theorem good_ops_WF {s t : DBState} {ops : List Op}
    (h : GoodOps s ops t) (hwf : WF s)
    (hlen : s.last_item_id + ops.length < U32LIM) : WF t := by
  induction h with
  | nil s => exact hwf
  | @cons s s1 t op ops r hop hce hds htail ih =>
      have hlt : s.last_item_id + 1 < U32LIM := by
        simp only [List.length_cons] at hlen
        omega
      have hwf1 := applyOp_preserves_WF hop hwf hlt hce hds
      have hbd := applyOp_keys_bound hop hwf.1 hwf.2.1 hlt
      apply ih hwf1
      have := hbd.2.2.2
      simp only [List.length_cons] at hlen
      omega

end Jirrah

namespace Jirrah

/-- C1 as falsified: from the empty snapshot, create two epics with empty
story lists, put a story under epic 1, then successfully call
delete_story naming epic 2 — the story is removed from the stories
collection while epic 1 still lists it, breaking referential
integrity. -/
theorem dangling_reference_after_mismatched_delete :
    Steps emptyDB [Op.createEpic sampleEpic, Op.createEpic sampleEpic,
        Op.createStory sampleStory 1, Op.deleteStory 2 3]
      { last_item_id := 3
        epics := [(2, sampleEpic), (1, { sampleEpic with stories := [3] })]
        stories := [] } ∧
    sampleEpic.stories = [] ∧
    ¬ RefIntegrity
      { last_item_id := 3
        epics := [(2, sampleEpic), (1, { sampleEpic with stories := [3] })]
        stories := [] } := by
  refine ⟨?_, rfl, by decide⟩
  refine Steps.cons (show applyOp (Op.createEpic sampleEpic) emptyDB =
    .ok ({ last_item_id := 1, epics := [(1, sampleEpic)], stories := [] },
      some 1) from rfl) ?_
  refine Steps.cons (show applyOp (Op.createEpic sampleEpic)
      { last_item_id := 1, epics := [(1, sampleEpic)], stories := [] } =
    .ok ({ last_item_id := 2
           epics := [(2, sampleEpic), (1, sampleEpic)]
           stories := [] }, some 2) from rfl) ?_
  refine Steps.cons (show applyOp (Op.createStory sampleStory 1)
      { last_item_id := 2, epics := [(2, sampleEpic), (1, sampleEpic)],
        stories := [] } =
    .ok ({ last_item_id := 3
           epics := [(2, sampleEpic), (1, { sampleEpic with stories := [3] })]
           stories := [(3, sampleStory)] }, some 3) from rfl) ?_
  refine Steps.cons (show applyOp (Op.deleteStory 2 3)
      { last_item_id := 3
        epics := [(2, sampleEpic), (1, { sampleEpic with stories := [3] })]
        stories := [(3, sampleStory)] } =
    .ok ({ last_item_id := 3
           epics := [(2, sampleEpic), (1, { sampleEpic with stories := [3] })]
           stories := [] }, none) from rfl) ?_
  exact Steps.nil _

/-- C1 (amended): starting from the empty snapshot, referential integrity
(every listed story id resolves, every story referenced by exactly one
epic) holds after every successful operation, provided every epic given
to create_epic carries an empty story list, every delete_story call names
the epic that actually references the story, and the run is shorter than
2^32 operations so the u32 counter cannot wrap. -/
theorem referential_integrity_invariant :
    ∀ (ops : List Op) (s : DBState),
      GoodOps emptyDB ops s → ops.length < U32LIM → RefIntegrity s := by
  intro ops s h hlen
  have hwf0 : WF emptyDB := by decide
  have hwf := good_ops_WF h hwf0 (by show 0 + ops.length < U32LIM; omega)
  exact hwf.2.2.2.2

/-- Closed instance of the C1 theorem: after one create_epic from the
empty snapshot, referential integrity holds. -/
theorem referential_integrity_invariant_witness :
    RefIntegrity { last_item_id := 1, epics := [(1, sampleEpic)], stories := [] } :=
  referential_integrity_invariant [Op.createEpic sampleEpic]
    { last_item_id := 1, epics := [(1, sampleEpic)], stories := [] }
    (GoodOps.cons
      (show applyOp (Op.createEpic sampleEpic) emptyDB =
        .ok ({ last_item_id := 1, epics := [(1, sampleEpic)], stories := [] },
          some 1) from rfl)
      (fun e h => by
        injection h with h2
        rw [← h2]
        rfl)
      (fun eid sid h => Op.noConfusion h)
      (GoodOps.nil _))
    (by decide)

end Jirrah

namespace Jirrah

theorem charDigit_digitChar {d : Nat} (h : d < 10) :
    charDigit (digitChar d) = some d := by
  interval_cases d <;> rfl

theorem digitsOfChars_map_digitChar {ds : List Nat} (h : ∀ d ∈ ds, d < 10) :
    digitsOfChars (ds.map digitChar) = some ds := by
  induction ds with
  | nil => rfl
  | cons d t ih =>
      rw [List.map_cons, digitsOfChars, charDigit_digitChar (h d (List.mem_cons_self _ _)),
        ih (fun x hx => h x (List.mem_cons_of_mem _ hx))]

theorem natOfKey_keyOfNat (n : Nat) : natOfKey (keyOfNat n) = some n := by
  by_cases hn : n = 0
  · subst hn
    decide
  · have hne : Nat.digits 10 n ≠ [] := Nat.digits_ne_nil_iff_ne_zero.2 hn
    have hkey : (keyOfNat n).data = (Nat.digits 10 n).reverse.map digitChar := by
      simp [keyOfNat, natKeyChars, hn]
    have hnonempty : (keyOfNat n).data ≠ [] := by
      rw [hkey]
      simp [hne]
    rw [natOfKey, if_neg hnonempty, hkey, digitsOfChars_map_digitChar]
    · show some (Nat.ofDigits 10 (Nat.digits 10 n).reverse.reverse) = some n
      rw [List.reverse_reverse, Nat.ofDigits_digits]
    · intro d hd
      rw [List.mem_reverse] at hd
      exact Nat.digits_lt_base (by norm_num) hd

theorem statusFromJson_toJson (st : Status) :
    Status.fromJson (Status.toJson st) = some st := by
  cases st <;> rfl

theorem natListFromJson_map (l : List Nat) :
    natListFromJson (l.map Json.num) = some l := by
  induction l with
  | nil => rfl
  | cons x t ih => rw [List.map_cons, natListFromJson, ih]

theorem epicFromJson_toJson (e : Epic) : Epic.fromJson (Epic.toJson e) = some e := by
  obtain ⟨nm, d, st, l⟩ := e
  have h1 : Epic.fromJson (Epic.toJson ⟨nm, d, st, l⟩) =
      (match Status.fromJson (Status.toJson st),
          natListFromJson (l.map Json.num) with
       | some st2, some l2 =>
           some { name := nm, description := d, status := st2, stories := l2 }
       | _, _ => none) := rfl
  rw [h1, statusFromJson_toJson, natListFromJson_map]

theorem storyFromJson_toJson (st : Story) :
    Story.fromJson (Story.toJson st) = some st := by
  obtain ⟨nm, d, s⟩ := st
  have h1 : Story.fromJson (Story.toJson ⟨nm, d, s⟩) =
      (match Status.fromJson (Status.toJson s) with
       | some s2 => some { name := nm, description := d, status := s2 }
       | none => none) := rfl
  rw [h1, statusFromJson_toJson]

theorem epicsFromJsonFields_map (m : List (Nat × Epic)) :
    epicsFromJsonFields (m.map (fun p => (keyOfNat p.1, Epic.toJson p.2))) =
      some m := by
  induction m with
  | nil => rfl
  | cons p t ih =>
      rw [List.map_cons, epicsFromJsonFields, natOfKey_keyOfNat,
        epicFromJson_toJson, ih]

theorem storiesFromJsonFields_map (m : List (Nat × Story)) :
    storiesFromJsonFields (m.map (fun p => (keyOfNat p.1, Story.toJson p.2))) =
      some m := by
  induction m with
  | nil => rfl
  | cons p t ih =>
      rw [List.map_cons, storiesFromJsonFields, natOfKey_keyOfNat,
        storyFromJson_toJson, ih]

theorem epicsFromJson_toJson (m : List (Nat × Epic)) :
    epicsFromJson (epicsToJson m) = some m := by
  rw [epicsToJson, epicsFromJson, epicsFromJsonFields_map]

theorem storiesFromJson_toJson (m : List (Nat × Story)) :
    storiesFromJson (storiesToJson m) = some m := by
  rw [storiesToJson, storiesFromJson, storiesFromJsonFields_map]

/-- C8: for every snapshot value, writing it through the file-backed
storage backend and reading it back yields a snapshot equal in every
field — serialization followed by deserialization is the identity at the
JSON value level. -/
theorem write_then_read_roundtrip : ∀ s : DBState, write_then_read s = some s := by
  intro s
  obtain ⟨n, es, ss⟩ := s
  have h1 : write_then_read ⟨n, es, ss⟩ =
      (match epicsFromJson (epicsToJson es),
          storiesFromJson (storiesToJson ss) with
       | some es2, some ss2 =>
           some { last_item_id := n, epics := es2, stories := ss2 }
       | _, _ => none) := rfl
  rw [h1, epicsFromJson_toJson, storiesFromJson_toJson]

end Jirrah
